import Mathlib

/-!
Verification development for the live-monitor screenshot tool.

The definitions below form a shallow embedding of the text-extraction and
deduplication pipeline of `app.py` (class `LiveMonitor`): trigger detection
(`check_trigger`), record extraction (`extract_all_products` with its regex
helpers), the duplicate check (`is_duplicate`), the capture store
(`save_screenshot`) and the per-record loop of `run_once`.

Strings are modelled as `List Char`.  Python's `str.lower` is modelled
character-wise by `Char.toLower` and the regex character classes `\w`, `\d`
and `\s` are modelled over their ASCII fragments, which is exact for the
ASCII marker keywords and digit tokens the pipeline manipulates.
-/

/-- Convert a string literal to the `List Char` representation used throughout. -/
def stc (s : String) : List Char := s.data

/-- Python regex `\w` (word character), ASCII fragment: letters, digits, underscore. -/
def isWordChar (c : Char) : Bool := c.isAlphanum || c == '_'

/-- Python regex `\s` (whitespace), ASCII fragment. -/
def pyIsSpace (c : Char) : Bool :=
  c == ' ' || c == '\t' || c == '\n' || c == '\r' || c == '\x0b' || c == '\x0c'

/-- Does the needle occur as a leading block of the haystack?  (Helper for
Python's substring test `needle in hay` and `hay.find(needle)`.) -/
def leadsList : List Char → List Char → Bool
  | [], _ => true
  | _ :: _, [] => false
  | a :: asx, b :: bs => a == b && leadsList asx bs

/-- Index of the first occurrence of `needle` in the haystack, starting the
count at `i`: models Python `hay.find(needle)` (which returns the lowest
index, and `0` for the empty needle). -/
def substrPosAux (needle : List Char) : Nat → List Char → Option Nat
  | i, [] => if needle.isEmpty then some i else none
  | i, c :: cs => if leadsList needle (c :: cs) then some i else substrPosAux needle (i + 1) cs

/-- Models Python `hay.find(needle)` (`none` for "not found"). -/
def substrPos (hay needle : List Char) : Option Nat := substrPosAux needle 0 hay

/-- Models Python `needle in hay` (substring containment). -/
def containsSub (hay needle : List Char) : Bool := (substrPos hay needle).isSome

/-- Numeric value of a digit string: models Python `int(s)` for strings of
decimal digits. -/
def digitsToNat (s : List Char) : Nat := s.foldl (fun n c => n * 10 + (c.toNat - 48)) 0

/-- Emit a completed digit run of `re.findall(r'\b(\d{1,4})\b', s)`: the run is
reported when its left boundary was a word boundary (`runOk`), its right
boundary is one too (`rightOk`), and it has 1 to 4 digits.  (Inside a longer
digit run no shorter match can start, since every inner position is preceded
by a digit, which is a word character.) -/
def emitRun (runOk : Bool) (run : List Char) (rightOk : Bool) : List (List Char) :=
  if runOk = true ∧ rightOk = true ∧ run ≠ [] ∧ run.length ≤ 4 then [run] else []

/-- Scanner for `re.findall(r'\b(\d{1,4})\b', s)`.  Arguments: remaining input,
whether the previous character was a word character, the digit run currently
being read, and whether that run started at a word boundary. -/
def fnAux : List Char → Bool → List Char → Bool → List (List Char)
  | [], _, run, runOk => emitRun runOk run true
  | c :: cs, prevW, run, runOk =>
    if c.isDigit then
      if run.isEmpty then fnAux cs true [c] (!prevW)
      else fnAux cs true (run ++ [c]) runOk
    else
      emitRun runOk run (!isWordChar c) ++ fnAux cs (isWordChar c) [] true

/-- Models `re.findall(r'\b(\d{1,4})\b', s)` from `extract_all_products`:
the list of 1-4 digit whole-number tokens of `s`, in order. -/
def findNumbers (s : List Char) : List (List Char) := fnAux s false [] true

/-- Scanner for `re.findall(r'[Ii][Dd][：:]\s*(\d+)', full_text)` (app.py
`id_patterns[0]`): non-overlapping left-to-right matches, returning the
captured digit groups.  The fuel argument (initially the input length, which
bounds the number of scanning steps) only makes the recursion structural. -/
def findallColonAux : Nat → List Char → List (List Char)
  | 0, _ => []
  | _, [] => []
  | _, [_] => []
  | _, [_, _] => []
  | fuel + 1, a :: b :: c :: rest =>
    if (a == 'i' || a == 'I') && (b == 'd' || b == 'D') && (c == ':' || c == '：') then
      let rest2 := rest.dropWhile pyIsSpace
      let digits := rest2.takeWhile Char.isDigit
      if digits.isEmpty then findallColonAux fuel (b :: c :: rest)
      else digits :: findallColonAux fuel (rest2.drop digits.length)
    else findallColonAux fuel (b :: c :: rest)

/-- `re.findall(r'[Ii][Dd][：:]\s*(\d+)', s)`. -/
def findallColon (s : List Char) : List (List Char) := findallColonAux s.length s

/-- Scanner for `re.findall(r'[Ii][Dd]\s+(\d+)', full_text)` (app.py
`id_patterns[1]`), with the same structural fuel. -/
def findallSpaceAux : Nat → List Char → List (List Char)
  | 0, _ => []
  | _, [] => []
  | _, [_] => []
  | _, [_, _] => []
  | fuel + 1, a :: b :: c :: rest =>
    if (a == 'i' || a == 'I') && (b == 'd' || b == 'D') && pyIsSpace c then
      let rest2 := rest.dropWhile pyIsSpace
      let digits := rest2.takeWhile Char.isDigit
      if digits.isEmpty then findallSpaceAux fuel (b :: c :: rest)
      else digits :: findallSpaceAux fuel (rest2.drop digits.length)
    else findallSpaceAux fuel (b :: c :: rest)

/-- `re.findall(r'[Ii][Dd]\s+(\d+)', s)`. -/
def findallSpace (s : List Char) : List (List Char) := findallSpaceAux s.length s

/-- Models `" ".join(lines)` (app.py line 275). -/
def joinSpace : List (List Char) → List Char
  | [] => []
  | [l] => l
  | l :: ls => l ++ ' ' :: joinSpace ls

/-- The ID dedup loop of `extract_all_products` (lines 290-295): keep first
occurrences, preserving order.  First argument is the `seen_ids` set. -/
def dedupKeepOrder : List (List Char) → List (List Char) → List (List Char)
  | _, [] => []
  | seen, x :: rest =>
    if x ∈ seen then dedupKeepOrder seen rest
    else x :: dedupKeepOrder (x :: seen) rest

/-- `unique_ids` of `extract_all_products`: both ID regexes over the
space-joined lines (pattern 1's matches fully before pattern 2's), then
dedup preserving first-occurrence order. -/
def uniqueIds (lines : List (List Char)) : List (List Char) :=
  dedupKeepOrder [] (findallColon (joinSpace lines) ++ findallSpace (joinSpace lines))

/-- The two serial marker keywords (app.py line 309). -/
def serialKeywords : List (List Char) := [stc "mtk", stc "yeye"]

/-- The four-step candidate search for one marker keyword on one line
(app.py lines 316-352): after the marker, before it, previous line, next
line; `none` when the marker is absent or no step yields a number. -/
def tryKeyword (prev? : Option (List Char)) (line : List Char) (next? : Option (List Char))
    (kw : List Char) : Option (List Char) :=
  match substrPos (line.map Char.toLower) kw with
  | none => none
  | some pos =>
    match (findNumbers (line.drop (pos + kw.length))).head? with
    | some n => some n
    | none =>
      match (if 0 < pos then (findNumbers (line.take pos)).getLast? else none) with
      | some n => some n
      | none =>
        match (match prev? with | some p => (findNumbers p).head? | none => none) with
        | some n => some n
        | none =>
          match next? with
          | some nx => (findNumbers nx).head?
          | none => none

/-- The keyword loop over one line: the first marker keyword that yields a
candidate appends it and breaks (app.py lines 315-352). -/
def lineSerialsAux (prev? : Option (List Char)) (line : List Char)
    (next? : Option (List Char)) : List (List Char) → List (List Char)
  | [] => []
  | kw :: kws =>
    match tryKeyword prev? line next? kw with
    | some n => [n]
    | none => lineSerialsAux prev? line next? kws

/-- Serial candidates appended while scanning one line (with its neighbours). -/
def lineSerials (prev? : Option (List Char)) (line : List Char)
    (next? : Option (List Char)) : List (List Char) :=
  lineSerialsAux prev? line next? serialKeywords

/-- `all_serials` of `extract_all_products`: the line loop of lines 313-352,
carrying the previous line and peeking at the next one. -/
def collectSerialsAux : Option (List Char) → List (List Char) → List (List Char)
  | _, [] => []
  | prev?, line :: rest => lineSerials prev? line rest.head? ++ collectSerialsAux (some line) rest

/-- `all_serials` of `extract_all_products` for the whole line list. -/
def collectSerials (lines : List (List Char)) : List (List Char) :=
  collectSerialsAux none lines

/-- The serial dedup/validation loop (app.py lines 355-367): keep first
occurrences whose numeric value lies in `[1, 9999]`.  First argument is the
`seen_serials` set. -/
def dedupSerials : List (List Char) → List (List Char) → List (List Char)
  | _, [] => []
  | seen, s :: rest =>
    if s ∈ seen then dedupSerials seen rest
    else
      if 1 ≤ digitsToNat s ∧ digitsToNat s ≤ 9999 then
        s :: dedupSerials (s :: seen) rest
      else dedupSerials seen rest

/-- `unique_serials` of `extract_all_products`. -/
def uniqueSerials (lines : List (List Char)) : List (List Char) :=
  dedupSerials [] (collectSerials lines)

/-- The sentinel `"unknown"`. -/
def unknownS : List Char := stc "unknown"

/-- The `ProductInfo` dataclass of app.py.  `styleCategory` models the
`style_category` attribute that `run_once` adds dynamically to the Python
object (absent at creation, hence `none`). -/
structure ProductInfo where
  product_id : List Char
  serial_number : List Char
  label_date : List Char
  raw_text : List Char
  timestamp : List Char
  filepath : List Char
  styleCategory : Option (List Char)
  deriving DecidableEq, Repr

/-- A freshly extracted record (filepath defaults to the empty string, no
style category yet). -/
def mkRecord (pid ser date text ts : List Char) : ProductInfo :=
  { product_id := pid, serial_number := ser, label_date := date,
    raw_text := text, timestamp := ts, filepath := [], styleCategory := none }

/-- The ID loop of `extract_all_products` (lines 373-383): the `i`-th unique
ID is paired with the `i`-th unique serial when one exists, else with the
sentinel.  `i` is the running index of `enumerate`. -/
def buildIdRecords (users : List (List Char)) (date text ts : List Char) :
    Nat → List (List Char) → List ProductInfo
  | _, [] => []
  | i, pid :: rest =>
    mkRecord pid (users.getD i unknownS) date text ts ::
      buildIdRecords users date text ts (i + 1) rest

/-- `LiveMonitor.extract_all_products(text, lines)` with the wall-clock date
and timestamp injected as parameters. -/
def extract_all_products (text : List Char) (lines : List (List Char))
    (currentDate ts : List Char) : List ProductInfo :=
  buildIdRecords (uniqueSerials lines) currentDate text ts 0 (uniqueIds lines) ++
    (if (uniqueIds lines).isEmpty = true ∧ (uniqueSerials lines).isEmpty = false then
      (uniqueSerials lines).map (fun s => mkRecord unknownS s currentDate text ts)
    else [])

/-- `LiveMonitor.check_trigger(lines)` with the configured trigger keyword as
a parameter (the source lowercases the keyword once and each line before the
substring test). -/
def check_trigger (lines : List (List Char)) (trigger : List Char) : Bool :=
  lines.any fun line => containsSub (line.map Char.toLower) (trigger.map Char.toLower)

/-- The file-system state the Duplicate Checker and Capture Store touch,
modelled as the set (list) of existing file paths. -/
abbrev FS := List (List Char)

/-- `pathlib`'s `/` on the simple relative components used here. -/
def pathJoin (a b : List Char) : List Char := a ++ '/' :: b

/-- The canonical folder for a record: `save_dir / f"ID_{id}" / label_date`
(app.py lines 438 and 455). -/
def date_folder (saveDir : List Char) (info : ProductInfo) : List Char :=
  pathJoin (pathJoin saveDir (stc "ID_" ++ info.product_id)) info.label_date

/-- `LiveMonitor.is_duplicate(info)`: does `{serial_number}.jpg` or
`{serial_number}.png` exist in the record's ID/date folder? -/
def is_duplicate (fs : FS) (saveDir : List Char) (info : ProductInfo) : Bool :=
  fs.contains (pathJoin (date_folder saveDir info) (info.serial_number ++ stc ".jpg")) ||
  fs.contains (pathJoin (date_folder saveDir info) (info.serial_number ++ stc ".png"))

/-- The characters `re.sub(r'[<>:"/\\|?*]', '_', filename)` replaces. -/
def illegalChar (c : Char) : Bool :=
  c == '<' || c == '>' || c == ':' || c == '\"' || c == '/' ||
  c == '\\' || c == '|' || c == '?' || c == '*'

/-- One character of the filename sanitization. -/
def sanitizeChar (c : Char) : Char := if illegalChar c then '_' else c

/-- `re.sub(r'[<>:"/\\|?*]', '_', s)` (app.py line 464). -/
def sanitize (s : List Char) : List Char := s.map sanitizeChar

/-- The full path `save_screenshot` constructs: ID/date folder joined with the
sanitized filename `f"{serial_number}.{img_format}"`, where the configured
format is lowercased first (app.py lines 459-466). -/
def savePath (saveDir fmt : List Char) (info : ProductInfo) : List Char :=
  pathJoin (date_folder saveDir info)
    (sanitize (info.serial_number ++ '.' :: fmt.map Char.toLower))

/-- `LiveMonitor.save_screenshot(image, info)`: returns the constructed path
unconditionally; the boolean result of `cv2.imwrite` (here the oracle
`imwOk`) decides only whether an artifact appears on disk, and is discarded
by the source (app.py lines 468-477). -/
def save_screenshot (fs : FS) (saveDir fmt : List Char) (imwOk : Bool)
    (info : ProductInfo) : List Char × FS :=
  (savePath saveDir fmt info, if imwOk then savePath saveDir fmt info :: fs else fs)

/-- Stub for the optional image classifier attached to the monitor:
whether `predict` raises, and the category it reports otherwise. -/
structure ClassifierStub where
  raises : Bool
  category : List Char
  deriving DecidableEq, Repr

/-- The classifier block of `run_once` (app.py lines 550-558): when a
classifier is attached and `predict` succeeds, the record's dynamically
added `style_category` attribute is assigned; exceptions are caught and
leave the record unchanged. -/
def classifyStep (cls : Option ClassifierStub) (info : ProductInfo) : ProductInfo :=
  match cls with
  | none => info
  | some c => if c.raises then info else { info with styleCategory := some c.category }

/-- Outcome of the per-record loop of `run_once`: either the list of saved
records together with the final file system, or an escaped exception (with
the file-system state at that point).  `run_once` has no try/except around
the loop body, so an exception propagates out of the whole cycle. -/
inductive RunResult where
  | ok : List ProductInfo → FS → RunResult
  | exn : FS → RunResult
  deriving DecidableEq, Repr

/-- The per-record loop of `run_once` (app.py lines 540-564): duplicate
check (skip), classifier step (isolated by try/except), save (NOT isolated:
a raising save, oracle `saveRaises`, escapes and aborts the loop), filepath
assignment, append to `saved_products`. -/
def processRecords (saveDir fmt : List Char) (cls : Option ClassifierStub)
    (saveRaises imwOk : ProductInfo → Bool) : FS → List ProductInfo → RunResult
  | fs, [] => .ok [] fs
  | fs, info :: rest =>
    if is_duplicate fs saveDir info then processRecords saveDir fmt cls saveRaises imwOk fs rest
    else
      let info1 := classifyStep cls info
      if saveRaises info then .exn fs
      else
        let res := save_screenshot fs saveDir fmt (imwOk info) info1
        match processRecords saveDir fmt cls saveRaises imwOk res.2 rest with
        | .ok saved fs2 => .ok ({ info1 with filepath := res.1 } :: saved) fs2
        | .exn fs2 => .exn fs2

/-- The records a cycle reported as saved (empty when the cycle died with an
exception: `run` catches it outside and never sees `saved_products`). -/
def savedOf : RunResult → List ProductInfo
  | .ok saved _ => saved
  | .exn _ => []

/-- Number of `/` separators in a path: measures directory nesting depth. -/
def countSlash (s : List Char) : Nat := s.count '/'

/-- Does a line carry one of the two ID patterns of `extract_all_products`? -/
def idLine (l : List Char) : Bool :=
  !(findallColon l).isEmpty || !(findallSpace l).isEmpty

/-- A record whose ID hypothetically contains a path separator. -/
def recSlashId : ProductInfo := mkRecord (stc "4/1") (stc "7") (stc "11-17") (stc "x") (stc "t")

/-- A plain digits record as produced by extraction. -/
def recPlain : ProductInfo := mkRecord (stc "41") (stc "7") (stc "11-17") (stc "x") (stc "t")

/-- A record on which the save raises in the scenarios below. -/
def recBad : ProductInfo := mkRecord (stc "41") (stc "1") (stc "11-17") (stc "x") (stc "t")

/-- A fresh sibling record scheduled after `recBad`. -/
def recAfter : ProductInfo := mkRecord (stc "41") (stc "2") (stc "11-17") (stc "x") (stc "t")

/-- Save-failure oracle: saving the record with serial `"1"` raises. -/
def raisesOnOne (r : ProductInfo) : Bool := r.serial_number == stc "1"

/-- The classifier attached in the scenario refuting C9. -/
def demoCls : ClassifierStub := { raises := false, category := stc "A" }

theorem leadsList_iff (n : List Char) : ∀ h : List Char,
    (leadsList n h = true ↔ ∃ t, h = n ++ t) := by
  induction n with
  | nil => intro h; simp [leadsList]
  | cons a asx ih =>
    intro h
    cases h with
    | nil => simp [leadsList]
    | cons b bs =>
      simp only [leadsList, Bool.and_eq_true, beq_iff_eq, ih bs, List.cons_append,
        List.cons.injEq]
      constructor
      · rintro ⟨rfl, t, rfl⟩; exact ⟨t, rfl, rfl⟩
      · rintro ⟨t, rfl, rfl⟩; exact ⟨rfl, t, rfl⟩

theorem substrPosAux_isSome (n : List Char) : ∀ (h : List Char) (i : Nat),
    ((substrPosAux n i h).isSome = true ↔ ∃ pre post, h = pre ++ n ++ post) := by
  intro h
  induction h with
  | nil =>
    intro i
    cases n with
    | nil => exact ⟨fun _ => ⟨[], [], rfl⟩, fun _ => by simp [substrPosAux, List.isEmpty]⟩
    | cons x xs =>
      simp only [substrPosAux, List.isEmpty, if_neg]
      constructor
      · intro hc; simp at hc
      · rintro ⟨pre, post, hp⟩
        exact absurd hp.symm (by simp)
  | cons c cs ih =>
    intro i
    cases hl : leadsList n (c :: cs) with
    | true =>
      obtain ⟨t, ht⟩ := (leadsList_iff n (c :: cs)).mp hl
      refine ⟨fun _ => ⟨[], t, by simpa using ht⟩, fun _ => ?_⟩
      simp [substrPosAux, hl]
    | false =>
      have heq : substrPosAux n i (c :: cs) = substrPosAux n (i + 1) cs := by
        simp [substrPosAux, hl]
      rw [heq, ih (i + 1)]
      constructor
      · rintro ⟨pre, post, rfl⟩; exact ⟨c :: pre, post, rfl⟩
      · rintro ⟨pre, post, hp⟩
        cases pre with
        | nil =>
          exfalso
          have hlead : leadsList n (c :: cs) = true :=
            (leadsList_iff n (c :: cs)).mpr ⟨post, by simpa using hp⟩
          rw [hl] at hlead
          exact Bool.false_ne_true hlead
        | cons p ps =>
          simp only [List.cons_append, List.cons.injEq] at hp
          exact ⟨ps, post, hp.2⟩

theorem containsSub_iff (hay n : List Char) :
    containsSub hay n = true ↔ ∃ pre post, hay = pre ++ n ++ post :=
  substrPosAux_isSome n hay 0

/-- C4: for every list of lines and every keyword, `check_trigger` returns
true if and only if the lowercased keyword is a substring of at least one
lowercased line.  (It is a total Lean function: pure, no side effects, no
failure modes.) -/
theorem c4_trigger_iff (lines : List (List Char)) (kw : List Char) :
    check_trigger lines kw = true ↔
      ∃ l, l ∈ lines ∧ ∃ pre post,
        l.map Char.toLower = pre ++ kw.map Char.toLower ++ post := by
  unfold check_trigger
  rw [List.any_eq_true]
  constructor
  · rintro ⟨l, hl, hc⟩; exact ⟨l, hl, (containsSub_iff _ _).mp hc⟩
  · rintro ⟨l, hl, hd⟩; exact ⟨l, hl, (containsSub_iff _ _).mpr hd⟩

theorem c4_trigger_iff_witness :
    ∃ l, l ∈ [stc "xx FaFa yy"] ∧ ∃ pre post,
      l.map Char.toLower = pre ++ (stc "FAFA").map Char.toLower ++ post :=
  (c4_trigger_iff [stc "xx FaFa yy"] (stc "FAFA")).mp (by decide)

theorem tryKeyword_marker (prev? next? : Option (List Char)) (line kw n : List Char)
    (h : tryKeyword prev? line next? kw = some n) :
    containsSub (line.map Char.toLower) kw = true := by
  unfold tryKeyword at h
  cases hp : substrPos (line.map Char.toLower) kw with
  | none => rw [hp] at h; simp at h
  | some pos => simp [containsSub, hp]

/-- C5 is false as stated: on the line `"mtk ID: 41"`, which carries an ID
pattern, the serial search takes the ID digit run `41` as the serial
candidate (step 1 looks to the right of the marker and finds the ID's
digits), so an ID-bearing line does contribute a serial candidate and the
ID digit run is taken as a serial. -/
theorem c5_counterexample :
    idLine (stc "mtk ID: 41") = true ∧
    lineSerials none (stc "mtk ID: 41") none = [stc "41"] ∧
    uniqueIds [stc "mtk ID: 41"] = [stc "41"] ∧
    uniqueSerials [stc "mtk ID: 41"] = [stc "41"] := by decide

/-- C5 amended: serial candidates are only ever searched adjacent to one of
the two fixed marker keywords — a line (together with its neighbours)
contributes a candidate only when the line contains a marker keyword
case-insensitively.  ID-bearing lines are NOT excluded: when such a line
contains a marker (or neighbours a marker line) its digit runs, including
the ID's, can be taken as serial candidates. -/
theorem c5_marker_adjacency (prev? next? : Option (List Char)) (line : List Char)
    (h : lineSerials prev? line next? ≠ []) :
    containsSub (line.map Char.toLower) (stc "mtk") = true ∨
    containsSub (line.map Char.toLower) (stc "yeye") = true := by
  cases h1 : tryKeyword prev? line next? (stc "mtk") with
  | some n => exact Or.inl (tryKeyword_marker _ _ _ _ _ h1)
  | none =>
    cases h2 : tryKeyword prev? line next? (stc "yeye") with
    | some n => exact Or.inr (tryKeyword_marker _ _ _ _ _ h2)
    | none =>
      exfalso
      exact h (by simp [lineSerials, serialKeywords, lineSerialsAux, h1, h2])

theorem c5_marker_adjacency_witness :
    lineSerials none (stc "mtk 5") none ≠ [] ∧
    (containsSub ((stc "mtk 5").map Char.toLower) (stc "mtk") = true ∨
     containsSub ((stc "mtk 5").map Char.toLower) (stc "yeye") = true) :=
  ⟨by decide, c5_marker_adjacency none none (stc "mtk 5") (by decide)⟩

/-- C7 is false as stated: only the filename `{serial}.{format}` is
sanitized (app.py line 464); the `ID_{product_id}` and date folder
components are used verbatim (line 455), so an ID value containing `/`
does create a nested directory: the path gains four separators over the
save root instead of the intended three. -/
theorem c7_counterexample :
    (save_screenshot [] (stc "shots") (stc "png") true recSlashId).1 =
      stc "shots/ID_4/1/11-17/7.png" ∧
    countSlash (save_screenshot [] (stc "shots") (stc "png") true recSlashId).1 =
      countSlash (stc "shots") + 4 := by decide

theorem countSlash_append (a b : List Char) :
    countSlash (a ++ b) = countSlash a + countSlash b := by
  simp [countSlash]

theorem sanitizeChar_ne_slash (c : Char) : sanitizeChar c ≠ '/' := by
  unfold sanitizeChar
  cases h : illegalChar c with
  | true => simp
  | false =>
    intro hc
    have hcc : c = '/' := by simpa using hc
    rw [hcc] at h
    simp [illegalChar] at h

theorem countSlash_sanitize (s : List Char) : countSlash (sanitize s) = 0 := by
  rw [countSlash, List.count_eq_zero]
  intro hmem
  obtain ⟨c, _, hc⟩ := List.mem_map.mp hmem
  exact sanitizeChar_ne_slash c hc

theorem countSlash_eq_zero_of_not_mem {s : List Char} (h : '/' ∉ s) : countSlash s = 0 := by
  rw [countSlash, List.count_eq_zero]; exact h

/-- C7 amended: `save_screenshot` sanitizes the FILENAME
`{serial_number}.{format}` — every character in `< > : " / \ | ? *` is
replaced by `_` — so a serial (or format) value containing `/` never
creates nested directories; but `product_id` and `label_date` enter the
directory path unsanitized, so the fixed `root/ID_{id}/{date}/{file}`
depth (three separators above the root) is only guaranteed when the ID
and the date themselves contain no `/`.  (Extraction constrains IDs to
digit strings, so the unsanitized ID path is unreachable from extracted
records.) -/
theorem c7_sanitized_depth :
    (∀ s : List Char, (sanitize s).all (fun c => !(illegalChar c)) = true) ∧
    (∀ (fs : FS) (saveDir fmt : List Char) (imwOk : Bool) (info : ProductInfo),
      '/' ∉ info.product_id → '/' ∉ info.label_date →
      countSlash (save_screenshot fs saveDir fmt imwOk info).1 = countSlash saveDir + 3) := by
  constructor
  · intro s
    rw [List.all_eq_true]
    intro c hc
    obtain ⟨c0, _, hc0⟩ := List.mem_map.mp hc
    cases h : illegalChar c0 with
    | true =>
      have : c = '_' := by rw [← hc0]; simp [sanitizeChar, h]
      rw [this]; decide
    | false =>
      have : c = c0 := by rw [← hc0]; simp [sanitizeChar, h]
      rw [this, h]; rfl
  · intro fs saveDir fmt imwOk info hid hdate
    show countSlash (savePath saveDir fmt info) = countSlash saveDir + 3
    rw [savePath, date_folder, pathJoin, pathJoin, pathJoin]
    have h1 : countSlash (stc "ID_" ++ info.product_id) = 0 := by
      rw [countSlash, List.count_eq_zero]
      intro hmem
      rcases List.mem_append.mp hmem with hmem | hmem
      · simp [stc] at hmem
      · exact hid hmem
    have h2 : countSlash info.label_date = 0 := countSlash_eq_zero_of_not_mem hdate
    have h3 : countSlash (sanitize (info.serial_number ++ '.' :: fmt.map Char.toLower)) = 0 :=
      countSlash_sanitize _
    have key : ∀ x y : List Char, countSlash (x ++ '/' :: y) = countSlash x + countSlash y + 1 := by
      intro x y
      rw [countSlash_append]
      simp [countSlash]
      omega
    rw [key, key, key, h1, h2, h3]

theorem c7_sanitized_depth_witness :
    '/' ∉ (stc "41") ∧ '/' ∉ (stc "11-17") ∧
    countSlash (save_screenshot [] (stc "shots") (stc "png") true
      (mkRecord (stc "41") (stc "7/7") (stc "11-17") (stc "x") (stc "t"))).1 =
      countSlash (stc "shots") + 3 :=
  ⟨by decide, by decide,
    c7_sanitized_depth.2 [] (stc "shots") (stc "png") true
      (mkRecord (stc "41") (stc "7/7") (stc "11-17") (stc "x") (stc "t"))
      (by decide) (by decide)⟩

/-- C6 is false as stated: with the configured format `"jpeg"`, the save
succeeds and writes `7.jpeg`, but `is_duplicate` only probes for `7.jpg`
and `7.png` (app.py lines 439-441), so the immediately following duplicate
check on the very record just saved returns false. -/
theorem c6_counterexample :
    is_duplicate (save_screenshot [] (stc "shots") (stc "jpeg") true recPlain).2
      (stc "shots") recPlain = false := by decide

theorem sanitize_append (a b : List Char) : sanitize (a ++ b) = sanitize a ++ sanitize b := by
  simp [sanitize]

/-- C6 amended: the save/duplicate-check round-trip holds exactly for the
two probed extensions: when the configured format lowercases to `"png"` or
`"jpg"` and the record's serial number is unchanged by filename
sanitization (true of every extracted serial, which is digits or
`"unknown"`), a successful save makes the immediately following
`is_duplicate` on the same record return true.  For any other configured
format the artifact's extension is not probed and the round-trip fails. -/
theorem c6_roundtrip (fs : FS) (saveDir fmt : List Char) (info : ProductInfo)
    (hfmt : fmt.map Char.toLower = stc "png" ∨ fmt.map Char.toLower = stc "jpg")
    (hser : sanitize info.serial_number = info.serial_number) :
    is_duplicate (save_screenshot fs saveDir fmt true info).2 saveDir info = true := by
  have hfile : sanitize (info.serial_number ++ '.' :: fmt.map Char.toLower) =
      info.serial_number ++ '.' :: fmt.map Char.toLower := by
    rw [sanitize_append, hser]
    rcases hfmt with h | h <;> rw [h] <;> rfl
  unfold is_duplicate save_screenshot savePath
  rw [hfile]
  rcases hfmt with h | h
  · rw [h]; simp [pathJoin]
    exact Or.inr (Or.inl (by decide))
  · rw [h]; simp [pathJoin]
    exact Or.inl (Or.inl (by decide))
theorem c6_roundtrip_witness :
    ((stc "PNG").map Char.toLower = stc "png" ∨ (stc "PNG").map Char.toLower = stc "jpg") ∧
    sanitize recPlain.serial_number = recPlain.serial_number ∧
    is_duplicate (save_screenshot [] (stc "shots") (stc "PNG") true recPlain).2
      (stc "shots") recPlain = true :=
  ⟨by decide, by decide,
    c6_roundtrip [] (stc "shots") (stc "PNG") recPlain (by decide) (by decide)⟩

/-- C10: `save_screenshot` returns the constructed filepath unconditionally —
the boolean status of the image-encoding call (`cv2.imwrite`, modelled by the
`imwOk` oracle) is discarded — so with a failed encode the path returned is
still the non-empty canonical path, no artifact appears on disk, and the
per-record loop still records the record as saved with `filepath` set. -/
theorem c10_encode_status_discarded (saveDir fmt : List Char) (fs : FS) (info : ProductInfo)
    (hdup : is_duplicate fs saveDir info = false) :
    (save_screenshot fs saveDir fmt false info).1 = savePath saveDir fmt info ∧
    savePath saveDir fmt info ≠ [] ∧
    (save_screenshot fs saveDir fmt false info).2 = fs ∧
    processRecords saveDir fmt none (fun _ => false) (fun _ => false) fs [info] =
      RunResult.ok [{ info with filepath := savePath saveDir fmt info }] fs := by
  refine ⟨rfl, ?_, rfl, ?_⟩
  · unfold savePath pathJoin
    simp
  · unfold processRecords
    rw [hdup]
    simp [classifyStep, save_screenshot, processRecords]

theorem c10_encode_status_discarded_witness :
    is_duplicate [] (stc "shots") recPlain = false ∧
    processRecords (stc "shots") (stc "png") none (fun _ => false) (fun _ => false) [] [recPlain] =
      RunResult.ok [{ recPlain with filepath := savePath (stc "shots") (stc "png") recPlain }] [] :=
  ⟨by decide, (c10_encode_status_discarded (stc "shots") (stc "png") [] recPlain (by decide)).2.2.2⟩

/-- C8 is false as stated: `run_once` has no try/except around
`save_screenshot`, so a raising save aborts the record loop.  With the
failing record first, the sibling `recAfter` is never duplicate-checked or
saved (the cycle ends in an escaped exception with nothing on disk), even
though processed alone the very same sibling is saved fine. -/
theorem c8_counterexample :
    processRecords (stc "shots") (stc "png") none raisesOnOne (fun _ => true) []
        [recBad, recAfter] = RunResult.exn [] ∧
    processRecords (stc "shots") (stc "png") none raisesOnOne (fun _ => true) [] [recAfter] =
      RunResult.ok [{ recAfter with filepath := savePath (stc "shots") (stc "png") recAfter }]
        [savePath (stc "shots") (stc "png") recAfter] := by
  exact ⟨by decide, by decide⟩

/-- C8 amended: only the classifier step is isolated per record; a RAISING
save aborts the remaining records of the cycle (isolation is per cycle, in
`run`, not per record).  What does hold within a cycle: when no record's
save raises, the loop always runs to completion — in particular an encode
failure (`cv2.imwrite` returning false, any `imwOk` oracle) never prevents
the duplicate check and save of sibling records. -/
theorem c8_no_raise_completes (saveDir fmt : List Char) (cls : Option ClassifierStub)
    (saveRaises imwOk : ProductInfo → Bool) (fs : FS) (recs : List ProductInfo)
    (h : ∀ r ∈ recs, saveRaises r = false) :
    ∃ saved fs2, processRecords saveDir fmt cls saveRaises imwOk fs recs =
      RunResult.ok saved fs2 ∧ saved.length ≤ recs.length := by
  induction recs generalizing fs with
  | nil => exact ⟨[], fs, rfl, by simp⟩
  | cons info rest ih =>
    have hinfo : saveRaises info = false := h info (by simp)
    have hrest : ∀ r ∈ rest, saveRaises r = false := fun r hr => h r (by simp [hr])
    unfold processRecords
    cases hdup : is_duplicate fs saveDir info with
    | true =>
      simp only [hdup, if_true]
      obtain ⟨saved, fs2, heq, hle⟩ := ih fs hrest
      exact ⟨saved, fs2, heq, Nat.le_succ_of_le hle⟩
    | false =>
      simp only [hdup, hinfo, Bool.false_eq_true, if_false]
      obtain ⟨saved, fs2, heq, hle⟩ :=
        ih (save_screenshot fs saveDir fmt (imwOk info) (classifyStep cls info)).2 hrest
      rw [heq]
      exact ⟨_ :: saved, fs2, rfl, by simpa using hle⟩

theorem c8_no_raise_completes_witness :
    (∀ r ∈ [recAfter], raisesOnOne r = false) ∧
    ∃ saved fs2, processRecords (stc "shots") (stc "png") none raisesOnOne
        (fun _ => false) [] [recAfter] = RunResult.ok saved fs2 ∧
      saved.length ≤ [recAfter].length :=
  ⟨by decide,
    c8_no_raise_completes (stc "shots") (stc "png") none raisesOnOne
      (fun _ => false) [] [recAfter] (by decide)⟩

theorem classifyStep_fields (cls : Option ClassifierStub) (info : ProductInfo) :
    (classifyStep cls info).product_id = info.product_id ∧
    (classifyStep cls info).serial_number = info.serial_number ∧
    (classifyStep cls info).label_date = info.label_date ∧
    (classifyStep cls info).raw_text = info.raw_text ∧
    (classifyStep cls info).timestamp = info.timestamp ∧
    (classifyStep cls info).filepath = info.filepath := by
  cases cls with
  | none => exact ⟨rfl, rfl, rfl, rfl, rfl, rfl⟩
  | some c =>
    obtain ⟨r, cat⟩ := c
    cases r <;> simp [classifyStep]

theorem savePath_classifyStep (saveDir fmt : List Char) (cls : Option ClassifierStub)
    (info : ProductInfo) :
    savePath saveDir fmt (classifyStep cls info) = savePath saveDir fmt info := by
  obtain ⟨h1, h2, h3, -, -, -⟩ := classifyStep_fields cls info
  unfold savePath date_folder
  rw [h1, h2, h3]

/-- C9 is false as stated: when a classifier is attached and its prediction
succeeds, `run_once` assigns `info.style_category` — a field other than
`filepath` — on the record after creation (app.py line 553).  The record
that comes out of the loop differs from the freshly created one in
`styleCategory`, not only in `filepath`. -/
theorem c9_counterexample :
    recPlain.styleCategory = none ∧
    savedOf (processRecords (stc "shots") (stc "png") (some demoCls) (fun _ => false)
        (fun _ => true) [] [recPlain]) =
      [{ recPlain with
          styleCategory := some (stc "A")
          filepath := savePath (stc "shots") (stc "png") recPlain }] := by
  exact ⟨rfl, by decide⟩

/-- C9 amended: apart from the single `filepath` assignment on successful
save, the only post-creation assignment is the dynamically added
`style_category`, written by the classifier step when a classifier is
attached and prediction succeeds.  Every record reported as saved descends
from an input record with `product_id`, `serial_number`, `label_date`,
`raw_text` and `timestamp` unchanged by trigger check, duplicate check,
classification and save; its `filepath` is exactly the path the save
constructed; and with no classifier attached `styleCategory` is unchanged
as well. -/
theorem c9_fields_preserved (saveDir fmt : List Char) (cls : Option ClassifierStub)
    (saveRaises imwOk : ProductInfo → Bool) (fs : FS) (recs : List ProductInfo) :
    ∀ r2 ∈ savedOf (processRecords saveDir fmt cls saveRaises imwOk fs recs),
      ∃ r, r ∈ recs ∧
        r2.product_id = r.product_id ∧ r2.serial_number = r.serial_number ∧
        r2.label_date = r.label_date ∧ r2.raw_text = r.raw_text ∧
        r2.timestamp = r.timestamp ∧
        r2.filepath = savePath saveDir fmt r ∧
        (cls = none → r2.styleCategory = r.styleCategory) := by
  induction recs generalizing fs with
  | nil => intro r2 h; simp [processRecords, savedOf] at h
  | cons info rest ih =>
    intro r2 h2
    unfold processRecords at h2
    cases hdup : is_duplicate fs saveDir info with
    | true =>
      rw [hdup] at h2
      simp only [if_true] at h2
      obtain ⟨r, hr, hp⟩ := ih fs r2 h2
      exact ⟨r, by simp [hr], hp⟩
    | false =>
      rw [hdup] at h2
      simp only [Bool.false_eq_true, if_false] at h2
      cases hsr : saveRaises info with
      | true =>
        rw [hsr] at h2
        simp only [if_true, savedOf] at h2
        exact absurd h2 (List.not_mem_nil r2)
      | false =>
        rw [hsr] at h2
        simp only [Bool.false_eq_true, if_false] at h2
        cases hm : processRecords saveDir fmt cls saveRaises imwOk
            (save_screenshot fs saveDir fmt (imwOk info) (classifyStep cls info)).2 rest with
        | exn fs2 =>
          rw [hm] at h2
          simp only [savedOf] at h2
          exact absurd h2 (List.not_mem_nil r2)
        | ok saved fs2 =>
          rw [hm] at h2
          simp only [savedOf, List.mem_cons] at h2
          rcases h2 with h2 | h2
          · refine ⟨info, by simp, ?_⟩
            obtain ⟨f1, f2, f3, f4, f5, -⟩ := classifyStep_fields cls info
            subst h2
            refine ⟨f1, f2, f3, f4, f5, ?_, ?_⟩
            · show (save_screenshot fs saveDir fmt (imwOk info) (classifyStep cls info)).1 =
                savePath saveDir fmt info
              rw [save_screenshot, savePath_classifyStep]
            · intro hnone
              subst hnone
              rfl
          · have h2x : r2 ∈ savedOf (processRecords saveDir fmt cls saveRaises imwOk
                (save_screenshot fs saveDir fmt (imwOk info) (classifyStep cls info)).2 rest) := by
              rw [hm]
              exact h2
            obtain ⟨r, hr, hp⟩ := ih _ r2 h2x
            exact ⟨r, by simp [hr], hp⟩

theorem c9_fields_preserved_witness :
    ({ recPlain with filepath := savePath (stc "shots") (stc "png") recPlain } ∈
      savedOf (processRecords (stc "shots") (stc "png") none (fun _ => false)
        (fun _ => true) [] [recPlain])) ∧
    ∃ r, r ∈ [recPlain] ∧
      ({ recPlain with filepath := savePath (stc "shots") (stc "png") recPlain }).product_id =
        r.product_id ∧
      ({ recPlain with filepath := savePath (stc "shots") (stc "png") recPlain }).serial_number =
        r.serial_number ∧
      ({ recPlain with filepath := savePath (stc "shots") (stc "png") recPlain }).label_date =
        r.label_date ∧
      ({ recPlain with filepath := savePath (stc "shots") (stc "png") recPlain }).raw_text =
        r.raw_text ∧
      ({ recPlain with filepath := savePath (stc "shots") (stc "png") recPlain }).timestamp =
        r.timestamp ∧
      ({ recPlain with filepath := savePath (stc "shots") (stc "png") recPlain }).filepath =
        savePath (stc "shots") (stc "png") r ∧
      ((none : Option ClassifierStub) = none →
        ({ recPlain with filepath := savePath (stc "shots") (stc "png") recPlain }).styleCategory =
          r.styleCategory) :=
  ⟨by decide,
    c9_fields_preserved (stc "shots") (stc "png") none (fun _ => false) (fun _ => true)
      [] [recPlain] _ (by decide)⟩

theorem buildIdRecords_length (users : List (List Char)) (date text ts : List Char) :
    ∀ (uids : List (List Char)) (k : Nat),
      (buildIdRecords users date text ts k uids).length = uids.length := by
  intro uids
  induction uids with
  | nil => intro k; rfl
  | cons pid rest ih => intro k; simp [buildIdRecords, ih]

theorem buildIdRecords_getElem? (users : List (List Char)) (date text ts : List Char) :
    ∀ (uids : List (List Char)) (k i : Nat),
      (buildIdRecords users date text ts k uids)[i]? =
        (uids[i]?).map (fun pid => mkRecord pid (users.getD (k + i) unknownS) date text ts) := by
  intro uids
  induction uids with
  | nil => intro k i; simp [buildIdRecords]
  | cons pid rest ih =>
    intro k i
    cases i with
    | zero => simp [buildIdRecords]
    | succ j =>
      simp only [buildIdRecords, List.getElem?_cons_succ]
      rw [ih (k + 1) j]
      have harith : k + 1 + j = k + (j + 1) := by omega
      rw [harith]

/-- C1: for every input, extraction pairs the `i`-th unique ID
(first-occurrence order) with the `i`-th unique serial when one exists at
that index and with the sentinel `"unknown"` otherwise (so the record
count equals the unique-ID count and serials beyond it are dropped, never
emitted); with zero unique IDs but at least one unique serial it emits one
`product_id = "unknown"` record per unique serial; and with zero of both
it returns the empty sequence. -/
theorem c1_index_pairing (text : List Char) (lines : List (List Char)) (d ts : List Char) :
    (uniqueIds lines ≠ [] →
      (extract_all_products text lines d ts).length = (uniqueIds lines).length ∧
      ∀ i : Nat, (extract_all_products text lines d ts)[i]? =
        ((uniqueIds lines)[i]?).map
          (fun pid => mkRecord pid ((uniqueSerials lines).getD i unknownS) d text ts)) ∧
    (uniqueIds lines = [] → uniqueSerials lines ≠ [] →
      extract_all_products text lines d ts =
        (uniqueSerials lines).map (fun s => mkRecord unknownS s d text ts)) ∧
    (uniqueIds lines = [] → uniqueSerials lines = [] →
      extract_all_products text lines d ts = []) := by
  refine ⟨?_, ?_, ?_⟩
  · intro hne
    have hemp : (uniqueIds lines).isEmpty = false := by
      cases h : uniqueIds lines with
      | nil => exact absurd h hne
      | cons x l => rfl
    unfold extract_all_products
    rw [hemp]
    simp only [Bool.false_eq_true, false_and, if_false, List.append_nil]
    refine ⟨buildIdRecords_length _ _ _ _ _ _, fun i => ?_⟩
    rw [buildIdRecords_getElem?]
    have hz : 0 + i = i := by omega
    rw [hz]
  · intro hid hser
    have hemp : (uniqueSerials lines).isEmpty = false := by
      cases h : uniqueSerials lines with
      | nil => exact absurd h hser
      | cons x l => rfl
    unfold extract_all_products
    rw [hid, hemp]
    simp [buildIdRecords]
  · intro hid hser
    unfold extract_all_products
    rw [hid, hser]
    simp [buildIdRecords]

theorem c1_index_pairing_witness :
    uniqueIds [stc "ID: 41", stc "mtk 2532"] ≠ [] ∧
    (extract_all_products (stc "t") [stc "ID: 41", stc "mtk 2532"] (stc "11-17")
        (stc "ts"))[0]? =
      ((uniqueIds [stc "ID: 41", stc "mtk 2532"])[0]?).map
        (fun pid => mkRecord pid
          ((uniqueSerials [stc "ID: 41", stc "mtk 2532"]).getD 0 unknownS)
          (stc "11-17") (stc "t") (stc "ts")) :=
  ⟨by decide,
    ((c1_index_pairing (stc "t") [stc "ID: 41", stc "mtk 2532"] (stc "11-17")
      (stc "ts")).1 (by decide)).2 0⟩

/-- C2: for every line containing a marker, the candidate is chosen in the
strict priority order (1) first 1-4 digit token after the marker's first
occurrence, (2) else LAST such token before it, (3) else FIRST such token
on the previous line when it exists, (4) else FIRST such token on the next
line when it exists — the search stopping at the first step that yields a
number (the `pos > 0` guard of step 2 is redundant: an empty before-slice
has no tokens); at most one candidate is appended per line, and once one
marker keyword appends a candidate the other is not tested on that line. -/
theorem c2_serial_priority (prev? next? : Option (List Char)) (line kw : List Char)
    (pos : Nat) :
    (substrPos (line.map Char.toLower) kw = some pos →
      tryKeyword prev? line next? kw =
        Option.orElse ((findNumbers (line.drop (pos + kw.length))).head?) (fun _ =>
          Option.orElse ((findNumbers (line.take pos)).getLast?) (fun _ =>
            Option.orElse (prev?.bind fun p => (findNumbers p).head?) (fun _ =>
              next?.bind fun p => (findNumbers p).head?)))) ∧
    (lineSerials prev? line next?).length ≤ 1 ∧
    (∀ n, tryKeyword prev? line next? (stc "mtk") = some n →
      lineSerials prev? line next? = [n]) := by
  refine ⟨?_, ?_, ?_⟩
  · intro h
    simp only [tryKeyword, h]
    cases h1 : (findNumbers (line.drop (pos + kw.length))).head? with
    | some n => simp [Option.orElse]
    | none =>
      simp only [Option.orElse]
      have hstep2 : (if 0 < pos then (findNumbers (line.take pos)).getLast? else none) =
          (findNumbers (line.take pos)).getLast? := by
        rcases Nat.eq_zero_or_pos pos with hp | hp
        · subst hp
          rw [if_neg (by omega)]
          rfl
        · rw [if_pos hp]
      rw [hstep2]
      cases h2 : (findNumbers (line.take pos)).getLast? with
      | some n => simp
      | none =>
        have hbind : (match prev? with | some p => (findNumbers p).head? | none => none) =
            prev?.bind fun p => (findNumbers p).head? := by
          cases prev? <;> rfl
        rw [hbind]
        cases h3 : prev?.bind fun p => (findNumbers p).head? with
        | some n => simp
        | none =>
          cases next? with
          | none => rfl
          | some nx => rfl
  · cases h1 : tryKeyword prev? line next? (stc "mtk") with
    | some n => simp [lineSerials, serialKeywords, lineSerialsAux, h1]
    | none =>
      cases h2 : tryKeyword prev? line next? (stc "yeye") with
      | some n => simp [lineSerials, serialKeywords, lineSerialsAux, h1, h2]
      | none => simp [lineSerials, serialKeywords, lineSerialsAux, h1, h2]
  · intro n hn
    simp [lineSerials, serialKeywords, lineSerialsAux, hn]

theorem c2_serial_priority_witness :
    substrPos ((stc "mtk 25").map Char.toLower) (stc "mtk") = some 0 ∧
    tryKeyword none (stc "mtk 25") none (stc "mtk") =
      Option.orElse ((findNumbers ((stc "mtk 25").drop (0 + (stc "mtk").length))).head?)
        (fun _ =>
          Option.orElse ((findNumbers ((stc "mtk 25").take 0)).getLast?) (fun _ =>
            Option.orElse ((none : Option (List Char)).bind fun p =>
              (findNumbers p).head?) (fun _ =>
              (none : Option (List Char)).bind fun p => (findNumbers p).head?))) :=
  ⟨by decide,
    (c2_serial_priority none none (stc "mtk 25") (stc "mtk") 0).1 (by decide)⟩

theorem emitRun_mem {runOk : Bool} {run : List Char} {rightOk : Bool} {t : List Char}
    (hrun : run.all Char.isDigit = true) (ht : t ∈ emitRun runOk run rightOk) :
    t.all Char.isDigit = true ∧ t ≠ [] ∧ t.length ≤ 4 := by
  unfold emitRun at ht
  split at ht
  · rename_i hcond
    simp only [List.mem_singleton] at ht
    subst ht
    exact ⟨hrun, hcond.2.2.1, hcond.2.2.2⟩
  · simp at ht

theorem fnAux_tokens : ∀ (cs : List Char) (prevW : Bool) (run : List Char) (runOk : Bool),
    run.all Char.isDigit = true →
    ∀ t ∈ fnAux cs prevW run runOk,
      t.all Char.isDigit = true ∧ t ≠ [] ∧ t.length ≤ 4 := by
  intro cs
  induction cs with
  | nil =>
    intro prevW run runOk hrun t ht
    exact emitRun_mem hrun ht
  | cons c cs ih =>
    intro prevW run runOk hrun t ht
    unfold fnAux at ht
    split at ht
    · rename_i hdig
      split at ht
      · exact ih true [c] (!prevW) (by simp [hdig]) t ht
      · exact ih true (run ++ [c]) runOk (by simp [List.all_append, hrun, hdig]) t ht
    · rcases List.mem_append.mp ht with ht | ht
      · exact emitRun_mem hrun ht
      · exact ih (isWordChar c) [] true rfl t ht

theorem findNumbers_tokens {s t : List Char} (ht : t ∈ findNumbers s) :
    t.all Char.isDigit = true ∧ t ≠ [] ∧ t.length ≤ 4 :=
  fnAux_tokens s false [] true rfl t ht

theorem tryKeyword_tokens {prev? next? : Option (List Char)} {line kw n : List Char}
    (h : tryKeyword prev? line next? kw = some n) :
    n.all Char.isDigit = true ∧ n ≠ [] ∧ n.length ≤ 4 := by
  unfold tryKeyword at h
  cases hpos : substrPos (line.map Char.toLower) kw with
  | none => rw [hpos] at h; simp at h
  | some pos =>
    rw [hpos] at h
    simp only [] at h
    cases h1 : (findNumbers (line.drop (pos + kw.length))).head? with
    | some m =>
      rw [h1] at h
      simp only [Option.some.injEq] at h
      subst h
      exact findNumbers_tokens (List.mem_of_mem_head? (Option.mem_def.mpr h1))
    | none =>
      rw [h1] at h
      simp only [] at h
      split at h
      · rename_i m hm
        injection h with h
        subst h
        split at hm
        · exact findNumbers_tokens (List.mem_of_getLast?_eq_some hm)
        · simp at hm
      · rename_i hsecond
        split at h
        · rename_i m hm
          injection h with h
          subst h
          cases hp : prev? with
          | none => rw [hp] at hm; simp at hm
          | some p =>
            rw [hp] at hm
            exact findNumbers_tokens (List.mem_of_mem_head? (Option.mem_def.mpr hm))
        · cases hn : next? with
          | none => rw [hn] at h; simp at h
          | some nx =>
            rw [hn] at h
            exact findNumbers_tokens (List.mem_of_mem_head? (Option.mem_def.mpr h))

theorem lineSerialsAux_tokens (prev? next? : Option (List Char)) (line : List Char) :
    ∀ (kws : List (List Char)), ∀ t ∈ lineSerialsAux prev? line next? kws,
      t.all Char.isDigit = true ∧ t ≠ [] ∧ t.length ≤ 4 := by
  intro kws
  induction kws with
  | nil => intro t ht; simp [lineSerialsAux] at ht
  | cons kw rest ih =>
    intro t ht
    unfold lineSerialsAux at ht
    cases h1 : tryKeyword prev? line next? kw with
    | some n =>
      rw [h1] at ht
      simp only [List.mem_singleton] at ht
      subst ht
      exact tryKeyword_tokens h1
    | none =>
      rw [h1] at ht
      exact ih t ht

theorem collectSerialsAux_tokens : ∀ (lines : List (List Char)) (prev? : Option (List Char)),
    ∀ t ∈ collectSerialsAux prev? lines,
      t.all Char.isDigit = true ∧ t ≠ [] ∧ t.length ≤ 4 := by
  intro lines
  induction lines with
  | nil => intro prev? t ht; simp [collectSerialsAux] at ht
  | cons line rest ih =>
    intro prev? t ht
    unfold collectSerialsAux at ht
    rcases List.mem_append.mp ht with ht | ht
    · exact lineSerialsAux_tokens prev? rest.head? line serialKeywords t ht
    · exact ih (some line) t ht

theorem dedupSerials_mem : ∀ (l seen : List (List Char)) (s : List Char),
    s ∈ dedupSerials seen l →
    s ∈ l ∧ 1 ≤ digitsToNat s ∧ digitsToNat s ≤ 9999 := by
  intro l
  induction l with
  | nil => intro seen s h; simp [dedupSerials] at h
  | cons x rest ih =>
    intro seen s h
    unfold dedupSerials at h
    split at h
    · obtain ⟨h1, h2, h3⟩ := ih seen s h
      exact ⟨List.mem_cons_of_mem x h1, h2, h3⟩
    · split at h
      · rename_i hrange
        rcases List.mem_cons.mp h with rfl | h2
        · exact ⟨List.mem_cons_self s rest, hrange.1, hrange.2⟩
        · obtain ⟨h1, h2, h3⟩ := ih (x :: seen) s h2
          exact ⟨List.mem_cons_of_mem x h1, h2, h3⟩
      · obtain ⟨h1, h2, h3⟩ := ih seen s h
        exact ⟨List.mem_cons_of_mem x h1, h2, h3⟩

theorem getD_mem_or {α : Type} : ∀ (l : List α) (k : Nat) (d : α),
    l.getD k d = d ∨ l.getD k d ∈ l := by
  intro l
  induction l with
  | nil => intro k d; left; rfl
  | cons x xs ih =>
    intro k d
    cases k with
    | zero => right; exact List.mem_cons_self _ _
    | succ j =>
      rcases ih j d with h | h
      · left; simpa using h
      · right; exact List.mem_cons_of_mem x (by simpa using h)

theorem buildIdRecords_serial (users : List (List Char)) (date text ts : List Char) :
    ∀ (uids : List (List Char)) (k : Nat) (p : ProductInfo),
      p ∈ buildIdRecords users date text ts k uids →
      p.serial_number = unknownS ∨ p.serial_number ∈ users := by
  intro uids
  induction uids with
  | nil => intro k p h; simp [buildIdRecords] at h
  | cons pid rest ih =>
    intro k p h
    unfold buildIdRecords at h
    rcases List.mem_cons.mp h with rfl | h2
    · rcases getD_mem_or users k unknownS with h3 | h3
      · left; exact h3
      · right; exact h3
    · exact ih (k + 1) p h2

/-- C3: every record emitted by extraction whose serial is not the sentinel
`"unknown"` is a digits-only string of 1 to 4 characters whose numeric
value lies in `[1, 9999]`; and the 5-digit line `"mtk 99999"` (for which
the 1-4 digit token pattern has no match) yields no serial candidate and,
alone, no record at all. -/
theorem c3_serial_invariant :
    (∀ (text : List Char) (lines : List (List Char)) (d ts : List Char),
      ∀ p ∈ extract_all_products text lines d ts,
        p.serial_number ≠ unknownS →
        p.serial_number.all Char.isDigit = true ∧
        1 ≤ p.serial_number.length ∧ p.serial_number.length ≤ 4 ∧
        1 ≤ digitsToNat p.serial_number ∧ digitsToNat p.serial_number ≤ 9999) ∧
    (∀ d ts : List Char,
      extract_all_products (stc "mtk 99999") [stc "mtk 99999"] d ts = []) := by
  constructor
  · intro text lines d ts p hp hne
    have hser : p.serial_number ∈ uniqueSerials lines := by
      unfold extract_all_products at hp
      rcases List.mem_append.mp hp with hp | hp
      · rcases buildIdRecords_serial _ _ _ _ _ _ _ hp with h | h
        · exact absurd h hne
        · exact h
      · split at hp
        · obtain ⟨s, hs, rfl⟩ := List.mem_map.mp hp
          exact hs
        · simp at hp
    obtain ⟨hmem, hlo, hhi⟩ := dedupSerials_mem _ _ _ hser
    obtain ⟨hdig, hnil, hlen⟩ := collectSerialsAux_tokens lines none _ hmem
    exact ⟨hdig, List.length_pos.mpr hnil, hlen, hlo, hhi⟩
  · intro d ts
    have h1 : uniqueIds [stc "mtk 99999"] = [] := by decide
    have h2 : uniqueSerials [stc "mtk 99999"] = [] := by decide
    unfold extract_all_products
    rw [h1, h2]
    simp [buildIdRecords]

theorem c3_serial_invariant_witness :
    (mkRecord unknownS (stc "7") (stc "11-17") (stc "t") (stc "ts") ∈
      extract_all_products (stc "t") [stc "mtk 7"] (stc "11-17") (stc "ts")) ∧
    (mkRecord unknownS (stc "7") (stc "11-17") (stc "t") (stc "ts")).serial_number ≠ unknownS ∧
    ((mkRecord unknownS (stc "7") (stc "11-17") (stc "t") (stc "ts")).serial_number.all
        Char.isDigit = true ∧
      1 ≤ (mkRecord unknownS (stc "7") (stc "11-17") (stc "t")
        (stc "ts")).serial_number.length ∧
      (mkRecord unknownS (stc "7") (stc "11-17") (stc "t") (stc "ts")).serial_number.length ≤ 4 ∧
      1 ≤ digitsToNat (mkRecord unknownS (stc "7") (stc "11-17") (stc "t")
        (stc "ts")).serial_number ∧
      digitsToNat (mkRecord unknownS (stc "7") (stc "11-17") (stc "t")
        (stc "ts")).serial_number ≤ 9999) :=
  ⟨by decide, by decide,
    c3_serial_invariant.1 (stc "t") [stc "mtk 7"] (stc "11-17") (stc "ts") _
      (by decide) (by decide)⟩
